import Mathlib

set_option maxRecDepth 8000

namespace YTM

/-- Calendar date (proleptic Gregorian), mirroring the pandas Timestamps the
calculator manipulates: year, month (1..12), day (1..31). -/
structure Date where
  y : ℕ
  m : ℕ
  d : ℕ
deriving DecidableEq, Repr

/-- Gregorian leap-year rule. -/
def isLeap (y : ℕ) : Bool := y % 4 == 0 && (y % 100 != 0 || y % 400 == 0)

/-- Length of month m of year y (pandas days_in_month). -/
def daysInMonth (y m : ℕ) : ℕ :=
  match m with
  | 1 => 31
  | 2 => if isLeap y then 29 else 28
  | 3 => 31
  | 4 => 30
  | 5 => 31
  | 6 => 30
  | 7 => 31
  | 8 => 31
  | 9 => 30
  | 10 => 31
  | 11 => 30
  | 12 => 31
  | _ => 31

/-- Cumulative days before month m in a non-leap year. -/
def monthDaysAcc (m : ℕ) : ℕ :=
  match m with
  | 1 => 0
  | 2 => 31
  | 3 => 59
  | 4 => 90
  | 5 => 120
  | 6 => 151
  | 7 => 181
  | 8 => 212
  | 9 => 243
  | 10 => 273
  | 11 => 304
  | 12 => 334
  | _ => 0

/-- Day number of a date (0001-01-01 has number 1); Timestamp subtraction in
the source is the difference of these numbers. -/
def Date.toDays (x : Date) : ℕ :=
  365 * (x.y - 1) + (x.y - 1) / 4 - (x.y - 1) / 100 + (x.y - 1) / 400 +
    monthDaysAcc x.m + (if 3 ≤ x.m then (if isLeap x.y then 1 else 0) else 0) + x.d

/-- (b − a).days of the source. -/
def dayDiff (b a : Date) : ℤ := (b.toDays : ℤ) - (a.toDays : ℤ)

/-- For dates with m ≤ 12 and d ≤ 31 this key orders exactly as the calendar
does, so comparison of keys models Timestamp comparison. -/
def Date.key (x : Date) : ℕ := x.y * 10000 + x.m * 100 + x.d

instance : LT Date := ⟨fun a b => a.key < b.key⟩

instance : LE Date := ⟨fun a b => a.key ≤ b.key⟩

instance (a b : Date) : Decidable (a < b) := inferInstanceAs (Decidable (a.key < b.key))

instance (a b : Date) : Decidable (a ≤ b) := inferInstanceAs (Decidable (a.key ≤ b.key))

/-- A well-formed calendar date. -/
def Date.Valid (x : Date) : Prop :=
  1 ≤ x.m ∧ x.m ≤ 12 ∧ 1 ≤ x.d ∧ x.d ≤ daysInMonth x.y x.m

instance (x : Date) : Decidable x.Valid := by
  unfold Date.Valid
  infer_instance

/-- Linear month index 12y + (m−1), for stepping whole months. -/
def monthIdx (x : Date) : ℕ := 12 * x.y + (x.m - 1)

/-- The month-end date of the month with linear index n. -/
def monthEndOfIdx (n : ℕ) : Date :=
  ⟨n / 12, n % 12 + 1, daysInMonth (n / 12) (n % 12 + 1)⟩

/-- pd.date_range(start=s, end=e, freq=k month-ends): the month-end dates of
the months of s, s + k months, s + 2k months, … that do not exceed e. -/
def dateRangeME (s e : Date) (k : ℕ) : List Date :=
  ((List.range ((monthIdx e - monthIdx s) / k + 1)).map
    (fun i => monthEndOfIdx (monthIdx s + i * k))).filter (fun x => x ≤ e)

/-- x.replace(day=dd) when dd fits in x's month, else x unchanged (line 22 of
the source: the range dates are pulled back to the start date's day of month
when that day exists in their month). -/
def replaceDay (dd : ℕ) (x : Date) : Date :=
  if dd ≤ daysInMonth x.y x.m then ⟨x.y, x.m, dd⟩ else x

inductive ScheduleError where
  | zeroMonthSpacing
deriving DecidableEq, Repr

/-- generate_payment_dates of the source. The spacing is 12 // frequency
months; when that floor quotient is 0 (frequency 0 or above 12) the Python
raises (ZeroDivisionError, or pandas rejecting a zero-period frequency),
modelled as the error case. Otherwise: month-end range from the start date,
each date pulled back to the start date's day of month when that day exists,
and the maturity date appended when the range missed it. No other validation
is performed. -/
def generate_payment_dates (start_date maturity_date : Date) (coupon_frequency : ℕ) :
    Except ScheduleError (List Date) :=
  if 12 / coupon_frequency = 0 then .error .zeroMonthSpacing
  else
    let dates := (dateRangeME start_date maturity_date (12 / coupon_frequency)).map
      (replaceDay start_date.d)
    .ok (if maturity_date ∈ dates then dates else dates ++ [maturity_date])

/-- One row of the cashflow table: Date, Cash Flow, Elapsed Days. -/
structure Event where
  date : Date
  cashFlow : ℚ
  elapsedDays : ℤ
deriving DecidableEq, Repr

/-- Line 57 of the source: the next end of tax year used inside the loop —
31 March of d's year if d is strictly before it, else 31 March of the next
year. -/
def eotyAfter (d : Date) : Date :=
  if d < ⟨d.y, 3, 31⟩ then ⟨d.y, 3, 31⟩ else ⟨d.y + 1, 3, 31⟩

/-- Line 65 of the source: the trailing end of tax year — keyed on month < 3
instead of a full date comparison. -/
def trailingEOTY (d : Date) : Date :=
  if d.m < 3 then ⟨d.y, 3, 31⟩ else ⟨d.y + 1, 3, 31⟩

def calculate_coupon_payment_amount (face_value coupon_rate : ℚ) (coupon_frequency : ℕ) : ℚ :=
  face_value * coupon_rate / coupon_frequency

/-- The loop of populate_cashflows from index 1 on. `first` says the head of
ds is cashflow_dates[1] (the first-coupon slot), a singleton ds is index
len−1 (the final slot, cash flow = face value + payment amount), `last` is
the date of the last event appended so far (cashflows[-1]). The first-coupon
event is skipped when its amount is 0 (line 47). After a non-final date d, a
zero checkpoint at eotyAfter d is inserted when it strictly precedes the next
date, its elapsed days measured from d itself (lines 56-63). -/
def pcAux (face_value payment_amount first_coupon_amount : ℚ) (first : Bool) (last : Date) :
    List Date → List Event
  | [] => []
  | [d] =>
    if first then
      if first_coupon_amount = 0 then []
      else [⟨d, first_coupon_amount, dayDiff d last⟩]
    else [⟨d, face_value + payment_amount, dayDiff d last⟩]
  | d :: d' :: rest =>
    let ev : List Event :=
      if first then
        if first_coupon_amount = 0 then []
        else [⟨d, first_coupon_amount, dayDiff d last⟩]
      else [⟨d, payment_amount, dayDiff d last⟩]
    let last1 : Date := if first ∧ first_coupon_amount = 0 then last else d
    let cp : List Event :=
      if eotyAfter d < d' then [⟨eotyAfter d, 0, dayDiff (eotyAfter d) d⟩] else []
    let last2 : Date := if eotyAfter d < d' then eotyAfter d else last1
    ev ++ cp ++ pcAux face_value payment_amount first_coupon_amount false last2 (d' :: rest)

/-- Assembly of populate_cashflows: the settlement event (cash flow
−purchase price, elapsed days 0), a possible checkpoint between settlement
and the first payment date, the loop over the payment dates, and the
unconditional trailing checkpoint after payment_dates[-1] (lines 65-70). -/
def pcAssemble (purchase_price face_value payment_amount first_coupon_amount : ℚ)
    (settlement_date : Date) (payment_dates : List Date) : List Event :=
  let cp0 : List Event :=
    match payment_dates with
    | [] => []
    | d1 :: _ =>
      if eotyAfter settlement_date < d1 then
        [⟨eotyAfter settlement_date, 0, dayDiff (eotyAfter settlement_date) settlement_date⟩]
      else []
  let last0 : Date :=
    match payment_dates with
    | [] => settlement_date
    | d1 :: _ =>
      if eotyAfter settlement_date < d1 then eotyAfter settlement_date else settlement_date
  let lastPd : Date := payment_dates.getLastD settlement_date
  ⟨settlement_date, -purchase_price, 0⟩ ::
    (cp0 ++
      pcAux face_value payment_amount first_coupon_amount true last0 payment_dates ++
      [⟨trailingEOTY lastPd, 0, dayDiff (trailingEOTY lastPd) lastPd⟩])

/-- populate_cashflows of the source, as the list of rows of the returned
DataFrame. -/
def populate_cashflows (purchase_price face_value coupon_rate : ℚ) (coupon_frequency : ℕ)
    (first_coupon_amount : ℚ) (settlement_date first_coupon_date maturity_date : Date) :
    Except ScheduleError (List Event) :=
  match generate_payment_dates first_coupon_date maturity_date coupon_frequency with
  | .error e => .error e
  | .ok payment_dates =>
    .ok (pcAssemble purchase_price face_value
      (calculate_coupon_payment_amount face_value coupon_rate coupon_frequency)
      first_coupon_amount settlement_date payment_dates)

/-- The derived columns of populate_interest_principle_columns. -/
structure AmortRow where
  currentInterest : ℚ
  currentPrincipal : ℚ
  cumulativeInterest : ℚ
  closingPrincipal : ℚ
deriving DecidableEq, Repr

/-- One iteration of the loop of populate_interest_principle_columns for
index > 0 (lines 104-111). -/
def amortStep (daily_rate : ℚ) (prev : AmortRow) (e : Event) : AmortRow :=
  let current_interest := ((1 + daily_rate) ^ e.elapsedDays - 1) * (-prev.closingPrincipal)
  let current_principal := e.cashFlow - current_interest
  ⟨current_interest, current_principal,
    prev.cumulativeInterest + current_interest, prev.closingPrincipal + current_principal⟩

def amortGo (daily_rate : ℚ) (prev : AmortRow) : List Event → List AmortRow
  | [] => []
  | e :: rest =>
    let row := amortStep daily_rate prev e
    row :: amortGo daily_rate row rest

/-- populate_interest_principle_columns of the source, as the list of new
columns (the source joins them onto the same rows). Index 0 takes interest 0
and principal = cash flow; every later index applies the compound-interest
step on the previous closing principal. -/
def populate_interest_principle_columns (cashflows : List Event) (daily_rate : ℚ) :
    List AmortRow :=
  match cashflows with
  | [] => []
  | e :: rest =>
    let row0 : AmortRow := ⟨0, e.cashFlow, 0, e.cashFlow⟩
    row0 :: amortGo daily_rate row0 rest

/-- interest_to_balance_data's loop, carrying the sum of the
InterestToBalance values already written (rows 0..index−1). A row whose date
is not a 31 March gets 0; a 31 March row gets CumulativeInterest minus that
sum (lines 116-121). Rows are (Date, CumulativeInterest). -/
def itbGo (s : ℚ) : List (Date × ℚ) → List ℚ
  | [] => []
  | (d, cum) :: rest =>
    if d.m = 3 ∧ d.d = 31 then
      let v := cum - s
      v :: itbGo (s + v) rest
    else 0 :: itbGo s rest

/-- interest_to_balance_data of the source, as the InterestToBalance column
computed from the (Date, CumulativeInterest) columns. -/
def interest_to_balance_data (rows : List (Date × ℚ)) : List ℚ := itbGo 0 rows

/-- A row of the table tax_to_declare works on: Date, Cash Flow and
InterestToBalance columns. -/
structure BalRow where
  date : Date
  cashFlow : ℚ
  itb : ℚ
deriving DecidableEq, Repr

/-- tax_to_declare's loop from index 1 on, carrying the sums over rows
1..index−1 of Cash Flow, TaxableInterest and InterestToBalance (the source's
df.loc[1:(index−1)] sums). A row with InterestToBalance 0 keeps
TaxableInterest 0; face value is added on the last row (line 132). -/
def t2dGo (face_value sCF sT sITB : ℚ) : List BalRow → List ℚ
  | [] => []
  | r :: rest =>
    let t := if r.itb ≠ 0 then
        r.itb - sCF - sT + sITB + (if rest = [] then face_value else 0)
      else 0
    t :: t2dGo face_value (sCF + r.cashFlow) (sT + t) (sITB + r.itb) rest

/-- tax_to_declare of the source, as the TaxableInterest column. Row 0 is
excluded from every running sum (the source sums df.loc[1:(index−1)]). -/
def tax_to_declare (rows : List BalRow) (face_value : ℚ) : List ℚ :=
  match rows with
  | [] => []
  | r0 :: rest =>
    let t0 := if r0.itb ≠ 0 then r0.itb + (if rest = [] then face_value else 0) else 0
    t0 :: t2dGo face_value 0 0 0 rest

inductive ValidationError where
  | purchasePriceNotPositive
  | faceValueNotPositive
  | couponRateOutOfRange
  | couponFrequencyInvalid
  | firstCouponAmountNegative
  | settlementDateMalformed
  | firstCouponDateMalformed
  | maturityDateMalformed
  | settlementAfterFirstCoupon
  | firstCouponAfterMaturity
deriving DecidableEq, Repr

/-- validate_inputs of the source (lines 156-190). Each constructor of
ValidationError stands for the corresponding message string. A date that is
pd.NaT is modelled as `none`. The coupon-rate test is transcribed exactly as
written in the source: `coupon_rate <= 0 and coupon_rate >= 1` (line 164),
a conjunction. -/
def validate_inputs (purchase_price face_value coupon_rate : ℚ) (coupon_frequency : ℤ)
    (first_coupon_amount : ℚ) (settlement_date first_coupon_date maturity_date : Option Date) :
    Option ValidationError :=
  if purchase_price ≤ 0 then some .purchasePriceNotPositive
  else if face_value ≤ 0 then some .faceValueNotPositive
  else if coupon_rate ≤ 0 ∧ coupon_rate ≥ 1 then some .couponRateOutOfRange
  else if coupon_frequency ∉ ([1, 2, 4, 6, 12] : List ℤ) then some .couponFrequencyInvalid
  else if first_coupon_amount < 0 then some .firstCouponAmountNegative
  else
    match settlement_date, first_coupon_date, maturity_date with
    | none, _, _ => some .settlementDateMalformed
    | some _, none, _ => some .firstCouponDateMalformed
    | some _, some _, none => some .maturityDateMalformed
    | some s, some f, some m =>
      if f < s then some .settlementAfterFirstCoupon
      else if m < f then some .firstCouponAfterMaturity
      else none

instance {ε α : Type} [DecidableEq ε] [DecidableEq α] : DecidableEq (Except ε α) := fun a b =>
  match a, b with
  | .error e, .error f =>
    if h : e = f then .isTrue (congrArg Except.error h)
    else .isFalse (fun hh => h (Except.error.inj hh))
  | .ok x, .ok y =>
    if h : x = y then .isTrue (congrArg Except.ok h)
    else .isFalse (fun hh => h (Except.ok.inj hh))
  | .error _, .ok _ => .isFalse Except.noConfusion
  | .ok _, .error _ => .isFalse Except.noConfusion

/-- The rows of a cashflow table carrying a zero cash flow (under valid bond
terms these are exactly the inserted tax-year checkpoints). -/
def zeroFlows (t : List Event) : List Event :=
  t.filter (fun ev => decide (ev.cashFlow = 0))

/-- True when no row of the table is dated dt with cash flow 0. -/
def noZeroFlowAt (dt : Date) (t : List Event) : Bool :=
  t.all (fun ev => !(decide (ev.date = dt) && decide (ev.cashFlow = 0)))

/-- Each event's elapsed days equal its date minus the previous event's date,
starting from prev. -/
def chainFrom (prev : Date) : List Event → Bool
  | [] => true
  | e :: rest => (e.elapsedDays == dayDiff e.date prev) && chainFrom e.date rest

/-- The elapsed-days invariant of a whole table: 0 for the first event, date
difference to the previous event for every later one. -/
def chainTable (t : List Event) : Bool :=
  match t with
  | [] => true
  | e :: rest => (e.elapsedDays == 0) && chainFrom e.date rest

/-- The checkpoint events the loop of populate_cashflows inserts: for each
consecutive pair (d, d') of cashflow dates, one zero-cash-flow event at
eotyAfter d — the first 31 March strictly after d — whenever it strictly
precedes d', with elapsed days measured from d. -/
def firstMarchCheckpoints : List Date → List Event
  | [] => []
  | [_] => []
  | d :: d' :: rest =>
    (if eotyAfter d < d' then [⟨eotyAfter d, 0, dayDiff (eotyAfter d) d⟩] else []) ++
      firstMarchCheckpoints (d' :: rest)

/-- The per-tax-year taxable-interest formula in the claim's words, boundary
rows keyed by date = 31 March: at a boundary, InterestToBalance minus the sum
of the cash flows of the rows strictly between the previous boundary (or row
0) and it, plus face value on the last row; 0 elsewhere. `s` is the running
cash-flow sum since the last boundary. -/
def tpyGo (face_value s : ℚ) : List BalRow → List ℚ
  | [] => []
  | r :: rest =>
    if r.date.m = 3 ∧ r.date.d = 31 then
      (r.itb - s + (if rest = [] then face_value else 0)) :: tpyGo face_value 0 rest
    else 0 :: tpyGo face_value (s + r.cashFlow) rest

def taxPerYearSpec (rows : List BalRow) (face_value : ℚ) : List ℚ :=
  match rows with
  | [] => []
  | r0 :: rest =>
    let t0 := if r0.date.m = 3 ∧ r0.date.d = 31 then
        r0.itb + (if rest = [] then face_value else 0)
      else 0
    t0 :: tpyGo face_value 0 rest

/-- The same per-tax-year formula with boundary rows keyed by a nonzero
InterestToBalance (the source's own test), the form tax_to_declare actually
implements. -/
def tnzGo (face_value s : ℚ) : List BalRow → List ℚ
  | [] => []
  | r :: rest =>
    if r.itb ≠ 0 then
      (r.itb - s + (if rest = [] then face_value else 0)) :: tnzGo face_value 0 rest
    else 0 :: tnzGo face_value (s + r.cashFlow) rest

def taxPerYearNZ (rows : List BalRow) (face_value : ℚ) : List ℚ :=
  match rows with
  | [] => []
  | r0 :: rest =>
    let t0 := if r0.itb ≠ 0 then r0.itb + (if rest = [] then face_value else 0) else 0
    t0 :: tnzGo face_value 0 rest

/-- The date of the last event of the list, p when the list is empty (the
date of cashflows[-1] during the build). -/
def lastDate (p : Date) : List Event → Date
  | [] => p
  | e :: rest => lastDate e.date rest

unseal Rat.mul Rat.add Rat.sub Rat.inv in
/-- C2: evaluation at first coupon date = maturity date (frequency 1, coupon
rate 0.06, face value 100). The claim says the last economic event of the
table carries cash flow = face value + face value × coupon rate / frequency
= 106; in the produced table the maturity event carries only the first
coupon amount (3) — the `index == 1` branch shadows the final-event branch
when there are exactly two cashflow dates — and no event of the table
carries 106, so the redemption of the face value is missing entirely. -/
theorem thmC2_no_redemption_at_maturity :
    populate_cashflows 95 100 (6/100) 1 3 ⟨2024,1,15⟩ ⟨2025,1,15⟩ ⟨2025,1,15⟩ =
      Except.ok [⟨⟨2024,1,15⟩, -95, 0⟩, ⟨⟨2024,3,31⟩, 0, 76⟩,
        ⟨⟨2025,1,15⟩, 3, 290⟩, ⟨⟨2025,3,31⟩, 0, 75⟩] ∧
    ([⟨⟨2024,1,15⟩, -95, 0⟩, ⟨⟨2024,3,31⟩, 0, 76⟩,
        ⟨⟨2025,1,15⟩, 3, 290⟩, ⟨⟨2025,3,31⟩, 0, 75⟩] : List Event).all
      (fun ev => decide (ev.cashFlow ≠ 106)) = true := by
  exact ⟨by decide, by decide⟩

unseal Rat.mul Rat.add Rat.sub Rat.inv in
/-- C3: the claim says validate_inputs rejects every coupon rate outside the
open interval (0,1) with a descriptive message and never returns None for
one. The source's test is `coupon_rate <= 0 and coupon_rate >= 1`, a
conjunction no rational satisfies, so a negative rate (−1/2) and a rate
above 1 (3/2) both pass validation: with every other field valid,
validate_inputs returns none. -/
theorem thmC3_coupon_rate_validation_bypassed :
    validate_inputs 95 100 (-(1/2)) 2 (5/2) (some ⟨2024,1,15⟩) (some ⟨2024,7,15⟩)
        (some ⟨2026,1,15⟩) = none ∧
    validate_inputs 95 100 (3/2) 2 (5/2) (some ⟨2024,1,15⟩) (some ⟨2024,7,15⟩)
        (some ⟨2026,1,15⟩) = none := by
  exact ⟨by decide, by decide⟩

unseal Rat.mul Rat.add Rat.sub Rat.inv in
/-- C1 counterexample: a BondTerms with first coupon amount = 0 (purchase 95,
face 100, rate 1/20, frequency 2, settlement 2024-01-15 ≤ first coupon
2024-07-15 ≤ maturity 2026-01-15) whose cashflow table contains NO event at
the first coupon date at all — the claim says an event with cash flow
exactly 0 must be present there. -/
theorem cexC1_first_coupon_event_omitted :
    populate_cashflows 95 100 (1/20) 2 0 ⟨2024,1,15⟩ ⟨2024,7,15⟩ ⟨2026,1,15⟩ =
      Except.ok [⟨⟨2024,1,15⟩, -95, 0⟩, ⟨⟨2024,3,31⟩, 0, 76⟩, ⟨⟨2025,1,15⟩, 5/2, 290⟩,
        ⟨⟨2025,3,31⟩, 0, 75⟩, ⟨⟨2025,7,15⟩, 5/2, 106⟩, ⟨⟨2026,1,15⟩, 205/2, 184⟩,
        ⟨⟨2026,3,31⟩, 0, 75⟩] ∧
    noZeroFlowAt ⟨2024,7,15⟩ [⟨⟨2024,1,15⟩, -95, 0⟩, ⟨⟨2024,3,31⟩, 0, 76⟩,
        ⟨⟨2025,1,15⟩, 5/2, 290⟩, ⟨⟨2025,3,31⟩, 0, 75⟩, ⟨⟨2025,7,15⟩, 5/2, 106⟩,
        ⟨⟨2026,1,15⟩, 205/2, 184⟩, ⟨⟨2026,3,31⟩, 0, 75⟩] = true := by
  exact ⟨by decide, by decide⟩

unseal Rat.mul Rat.add Rat.sub Rat.inv in
/-- C4 counterexample: valid BondTerms (settlement 2022-06-15, first coupon
2024-08-15, maturity 2025-03-15, frequency 2). 2024-03-31 falls strictly
between settlement and first coupon date, yet no event of the table is dated
2024-03-31 (only the first 31 March of that gap, 2023-03-31, gets a
checkpoint); and the trailing checkpoint is dated 2026-03-31 although the
next 31 March following the last payment date 2025-03-15 is 2025-03-31. Both
parts of the claim fail. -/
theorem cexC4_checkpoint_not_at_every_march :
    populate_cashflows 95 100 (1/20) 2 2 ⟨2022,6,15⟩ ⟨2024,8,15⟩ ⟨2025,3,15⟩ =
      Except.ok [⟨⟨2022,6,15⟩, -95, 0⟩, ⟨⟨2023,3,31⟩, 0, 289⟩, ⟨⟨2024,8,15⟩, 2, 503⟩,
        ⟨⟨2025,2,15⟩, 5/2, 184⟩, ⟨⟨2025,3,15⟩, 205/2, 28⟩, ⟨⟨2026,3,31⟩, 0, 381⟩] ∧
    ([⟨⟨2022,6,15⟩, -95, 0⟩, ⟨⟨2023,3,31⟩, 0, 289⟩, ⟨⟨2024,8,15⟩, 2, 503⟩,
        ⟨⟨2025,2,15⟩, 5/2, 184⟩, ⟨⟨2025,3,15⟩, 205/2, 28⟩, ⟨⟨2026,3,31⟩, 0, 381⟩] :
      List Event).all (fun ev => decide (ev.date ≠ ⟨2024,3,31⟩)) = true ∧
    (⟨2022,6,15⟩ : Date) < ⟨2024,3,31⟩ ∧ (⟨2024,3,31⟩ : Date) < ⟨2024,8,15⟩ ∧
    (⟨2025,3,15⟩ : Date) < ⟨2025,3,31⟩ := by
  exact ⟨by decide, by decide, by decide, by decide, by decide⟩

unseal Rat.mul Rat.add Rat.sub Rat.inv in
/-- C7 counterexample: first coupon amount = 0 with a 31 March between the
omitted first coupon date (2024-02-15) and the next payment date. The
checkpoint at 2024-03-31 records elapsed days 45 = 2024-03-31 − 2024-02-15,
measured from the omitted date, while the event preceding it in the table is
the settlement event of 2024-01-15 (true difference 76), so the elapsed-days
invariant of the claim fails on this table. -/
theorem cexC7_elapsed_days_after_skipped_coupon :
    populate_cashflows 95 100 (1/20) 2 0 ⟨2024,1,15⟩ ⟨2024,2,15⟩ ⟨2025,2,15⟩ =
      Except.ok [⟨⟨2024,1,15⟩, -95, 0⟩, ⟨⟨2024,3,31⟩, 0, 45⟩, ⟨⟨2024,8,15⟩, 5/2, 137⟩,
        ⟨⟨2025,2,15⟩, 205/2, 184⟩, ⟨⟨2025,3,31⟩, 0, 44⟩] ∧
    chainTable [⟨⟨2024,1,15⟩, -95, 0⟩, ⟨⟨2024,3,31⟩, 0, 45⟩, ⟨⟨2024,8,15⟩, 5/2, 137⟩,
        ⟨⟨2025,2,15⟩, 205/2, 184⟩, ⟨⟨2025,3,31⟩, 0, 44⟩] = false ∧
    dayDiff ⟨2024,3,31⟩ ⟨2024,1,15⟩ = 76 := by
  exact ⟨by decide, by decide, by decide⟩

/-- C9 counterexample: start date 2025-05-01 is after maturity date
2024-05-01, yet generate_payment_dates does not fail — it returns the
one-element schedule [2024-05-01]. The claim says this input fails with
InvalidScheduleError. -/
theorem cexC9_no_error_when_start_after_maturity :
    generate_payment_dates ⟨2025,5,1⟩ ⟨2024,5,1⟩ 2 = Except.ok [⟨2024,5,1⟩] ∧
    (⟨2024,5,1⟩ : Date) < ⟨2025,5,1⟩ := by
  exact ⟨by decide, by decide⟩

unseal Rat.mul Rat.add Rat.sub Rat.inv in
/-- C10 counterexample: a table whose three rows have InterestToBalance 0
everywhere (consistent with interest_to_balance_data on an all-zero
CumulativeInterest column) and whose only 31 March row (the last) has cash
flow 0, as the claim requires. tax_to_declare keys boundaries off a nonzero
InterestToBalance and assigns that row 0, while the claim's per-tax-year
formula assigns it 0 − (cash flow sum 5) + face value 100 = 95; the claimed
equivalence fails on this table. -/
theorem cexC10_zero_itb_boundary_mismatch :
    tax_to_declare [⟨⟨2024,1,15⟩, -100, 0⟩, ⟨⟨2024,2,15⟩, 5, 0⟩, ⟨⟨2024,3,31⟩, 0, 0⟩] 100 =
      [0, 0, 0] ∧
    taxPerYearSpec [⟨⟨2024,1,15⟩, -100, 0⟩, ⟨⟨2024,2,15⟩, 5, 0⟩, ⟨⟨2024,3,31⟩, 0, 0⟩] 100 =
      [0, 0, 95] ∧
    interest_to_balance_data [(⟨2024,1,15⟩, 0), (⟨2024,2,15⟩, 0), (⟨2024,3,31⟩, 0)] =
      [0, 0, 0] ∧
    ([⟨⟨2024,1,15⟩, -100, 0⟩, ⟨⟨2024,2,15⟩, 5, 0⟩, ⟨⟨2024,3,31⟩, 0, 0⟩] : List BalRow).all
      (fun r => !(decide (r.date.m = 3 ∧ r.date.d = 31)) || decide (r.cashFlow = 0)) = true := by
  exact ⟨by decide, by decide, by decide, by decide⟩

theorem itbGo_cons (s : ℚ) (rd : Date) (rc : ℚ) (rest : List (Date × ℚ)) :
    itbGo s ((rd, rc) :: rest) =
      if rd.m = 3 ∧ rd.d = 31 then (rc - s) :: itbGo (s + (rc - s)) rest
      else 0 :: itbGo s rest := rfl

theorem itbGo_sum (d : Date) (c : ℚ) (hm : d.m = 3) (hd : d.d = 31) :
    ∀ (rows : List (Date × ℚ)) (s : ℚ), rows.getLast? = some (d, c) →
      s + (itbGo s rows).sum = c := by
  intro rows
  induction rows with
  | nil => intro s hl; simp at hl
  | cons r rest ih =>
    obtain ⟨rd, rc⟩ := r
    intro s hl
    rw [itbGo_cons]
    cases rest with
    | nil =>
      simp only [List.getLast?_singleton, Option.some.injEq, Prod.mk.injEq] at hl
      obtain ⟨h1, h2⟩ := hl
      subst h1 h2
      rw [if_pos ⟨hm, hd⟩]
      simp only [itbGo, List.sum_cons, List.sum_nil, add_zero]
      ring
    | cons r2 rest2 =>
      have hl' : (r2 :: rest2).getLast? = some (d, c) := by
        rwa [List.getLast?_cons_cons] at hl
      by_cases hb : rd.m = 3 ∧ rd.d = 31
      · rw [if_pos hb]
        have h := ih (s + (rc - s)) hl'
        rw [List.sum_cons]
        linarith
      · rw [if_neg hb]
        have h := ih s hl'
        rw [List.sum_cons]
        linarith

theorem pcAssemble_getLast (pp fv pay fca : ℚ) (sd : Date) (pds : List Date) :
    (pcAssemble pp fv pay fca sd pds).getLast? =
      some ⟨trailingEOTY (pds.getLastD sd), 0,
        dayDiff (trailingEOTY (pds.getLastD sd)) (pds.getLastD sd)⟩ := by
  unfold pcAssemble
  have h : ∀ (e : Event) (l1 l2 : List Event) (a : Event),
      (e :: (l1 ++ l2 ++ [a])).getLast? = some a := by
    intro e l1 l2 a
    have : e :: (l1 ++ l2 ++ [a]) = (e :: (l1 ++ l2)) ++ [a] := by simp
    rw [this, List.getLast?_concat]
  exact h _ _ _ _

theorem trailingEOTY_march (x : Date) : (trailingEOTY x).m = 3 ∧ (trailingEOTY x).d = 31 := by
  unfold trailingEOTY
  split <;> exact ⟨rfl, rfl⟩

/-- C6: for every table whose final row is a tax-year boundary (date 31
March), the sum of the InterestToBalance column produced by
interest_to_balance_data equals the final row's CumulativeInterest — exactly,
in rational arithmetic; and every table produced by populate_cashflows does
end in a zero-cash-flow 31 March row (the unconditional trailing
checkpoint), so every accrued unit of interest is attributed to exactly one
boundary. -/
theorem thmC6_itb_sum_equals_final_cumulative_interest :
    (∀ (rows : List (Date × ℚ)) (d : Date) (c : ℚ),
        rows.getLast? = some (d, c) → d.m = 3 → d.d = 31 →
        (interest_to_balance_data rows).sum = c) ∧
    (∀ (pp fv cr : ℚ) (freq : ℕ) (fca : ℚ) (sd fcd md : Date) (t : List Event),
        populate_cashflows pp fv cr freq fca sd fcd md = Except.ok t →
        ∃ ev : Event, t.getLast? = some ev ∧ ev.date.m = 3 ∧ ev.date.d = 31 ∧
          ev.cashFlow = 0) := by
  constructor
  · intro rows d c hl hm hd
    have h := itbGo_sum d c hm hd rows 0 hl
    unfold interest_to_balance_data
    linarith
  · intro pp fv cr freq fca sd fcd md t ht
    unfold populate_cashflows at ht
    cases hg : generate_payment_dates fcd md freq with
    | error e => rw [hg] at ht; exact absurd ht (by simp)
    | ok pds =>
      rw [hg] at ht
      simp only [Except.ok.injEq] at ht
      subst ht
      refine ⟨_, pcAssemble_getLast pp fv _ fca sd pds, ?_, ?_, rfl⟩
      · exact (trailingEOTY_march _).1
      · exact (trailingEOTY_march _).2

theorem amortGo_length (r : ℚ) (l : List Event) (prev : AmortRow) :
    (amortGo r prev l).length = l.length := by
  induction l generalizing prev with
  | nil => simp [amortGo]
  | cons e rest ih => simp [amortGo, ih]

theorem amortGo_getD_succ (r : ℚ) (l : List Event) (prev : AmortRow) (i : ℕ)
    (h : i + 1 < l.length) :
    (amortGo r prev l).getD (i+1) ⟨0,0,0,0⟩ =
      amortStep r ((amortGo r prev l).getD i ⟨0,0,0,0⟩) (l.getD (i+1) ⟨⟨0,0,0⟩,0,0⟩) := by
  induction l generalizing prev i with
  | nil => simp at h
  | cons e rest ih =>
    cases i with
    | zero =>
      cases rest with
      | nil => simp at h
      | cons e2 r2 => simp [amortGo]
    | succ j =>
      have h' : j + 1 < rest.length := by simpa using h
      simpa [amortGo] using ih (amortStep r prev e) j h'

/-- C5: populate_interest_principle_columns computes one derived row per
event; at event 0: current interest = 0, current principal = cash flow,
cumulative interest = 0, closing principal = cash flow; at every event
i + 1: current interest = ((1 + daily rate)^elapsed days − 1) × (−closing
principal of event i), current principal = cash flow − current interest,
cumulative interest and closing principal accumulate — exactly the claimed
recurrence. -/
theorem thmC5_amortization_recurrence (cashflows : List Event) (daily_rate : ℚ) :
    (populate_interest_principle_columns cashflows daily_rate).length = cashflows.length ∧
    (∀ e0 rest0, cashflows = e0 :: rest0 →
      (populate_interest_principle_columns cashflows daily_rate).getD 0 ⟨0,0,0,0⟩ =
        ⟨0, e0.cashFlow, 0, e0.cashFlow⟩) ∧
    (∀ i, i + 1 < cashflows.length →
      (populate_interest_principle_columns cashflows daily_rate).getD (i+1) ⟨0,0,0,0⟩ =
        let prev := (populate_interest_principle_columns cashflows daily_rate).getD i ⟨0,0,0,0⟩
        let e := cashflows.getD (i+1) ⟨⟨0,0,0⟩,0,0⟩
        let ci := ((1 + daily_rate) ^ e.elapsedDays - 1) * (-prev.closingPrincipal)
        ⟨ci, e.cashFlow - ci, prev.cumulativeInterest + ci,
          prev.closingPrincipal + (e.cashFlow - ci)⟩) := by
  refine ⟨?_, ?_, ?_⟩
  · cases cashflows with
    | nil => simp [populate_interest_principle_columns]
    | cons e rest => simp [populate_interest_principle_columns, amortGo_length]
  · intro e0 rest0 hc
    subst hc
    simp [populate_interest_principle_columns]
  · intro i h
    cases cashflows with
    | nil => simp at h
    | cons e rest =>
      show _ = amortStep daily_rate _ _
      cases i with
      | zero =>
        cases rest with
        | nil => simp at h
        | cons e2 r2 =>
          simp [populate_interest_principle_columns, amortGo]
      | succ j =>
        have h' : j + 1 < rest.length := by simpa using h
        simpa [populate_interest_principle_columns] using
          amortGo_getD_succ daily_rate rest ⟨0, e.cashFlow, 0, e.cashFlow⟩ j h'

unseal Rat.mul Rat.add Rat.sub Rat.inv in
/-- C5 witness: the recurrence instantiated on a concrete two-event table
with daily rate 1/10. -/
theorem witC5_amortization_recurrence :
    (populate_interest_principle_columns
        [⟨⟨2024,1,1⟩, -100, 0⟩, ⟨⟨2024,1,2⟩, 10, 1⟩] (1/10)).getD 1 ⟨0,0,0,0⟩ =
      ⟨10, 0, 10, -100⟩ := by
  have h := (thmC5_amortization_recurrence [⟨⟨2024,1,1⟩, -100, 0⟩, ⟨⟨2024,1,2⟩, 10, 1⟩] (1/10)).2.2 0 (by decide)
  exact h.trans (by decide)

theorem chainFrom_append (p : Date) (l1 l2 : List Event) :
    chainFrom p (l1 ++ l2) = (chainFrom p l1 && chainFrom (lastDate p l1) l2) := by
  induction l1 generalizing p with
  | nil => simp [chainFrom, lastDate]
  | cons e rest ih => simp [chainFrom, lastDate, ih, Bool.and_assoc]

theorem lastDate_append (p : Date) (l1 l2 : List Event) :
    lastDate p (l1 ++ l2) = lastDate (lastDate p l1) l2 := by
  induction l1 generalizing p with
  | nil => simp [lastDate]
  | cons e rest ih => simp [lastDate, ih]

theorem getLast?_getD_cons (a : Date) (l : List Date) (x y : Date) :
    ((a :: l).getLast?).getD x = ((a :: l).getLast?).getD y := by
  cases h : (a :: l).getLast? with
  | none => simp [List.getLast?_eq_none_iff] at h
  | some b => simp

theorem pcAux_chain (fv pay fca : ℚ) (hfca : fca ≠ 0) :
    ∀ (ds : List Date) (first : Bool) (last : Date),
      chainFrom last (pcAux fv pay fca first last ds) = true ∧
      lastDate last (pcAux fv pay fca first last ds) = ds.getLastD last := by
  intro ds
  induction ds with
  | nil => intro first last; simp [pcAux, chainFrom, lastDate]
  | cons d rest ih =>
    intro first last
    cases rest with
    | nil =>
      cases first with
      | false => simp [pcAux, chainFrom, lastDate]
      | true => simp [pcAux, chainFrom, lastDate, hfca]
    | cons d2 rest2 =>
      have hstep : pcAux fv pay fca first last (d :: d2 :: rest2) =
          (if first then [⟨d, fca, dayDiff d last⟩] else [⟨d, pay, dayDiff d last⟩]) ++
          (if eotyAfter d < d2 then [⟨eotyAfter d, 0, dayDiff (eotyAfter d) d⟩] else []) ++
          pcAux fv pay fca false (if eotyAfter d < d2 then eotyAfter d else d) (d2 :: rest2) := by
        show pcAux fv pay fca first last (d :: d2 :: rest2) = _
        simp only [pcAux, hfca, if_false, if_neg (by simp [hfca] : ¬(first = true ∧ fca = 0))]
        cases first <;> simp [hfca]
      have h1 : chainFrom last (if first then [⟨d, fca, dayDiff d last⟩]
          else [⟨d, pay, dayDiff d last⟩]) = true := by
        cases first <;> simp [chainFrom]
      have h2 : lastDate last (if first then [⟨d, fca, dayDiff d last⟩]
          else [⟨d, pay, dayDiff d last⟩]) = d := by
        cases first <;> simp [lastDate]
      by_cases hcp : eotyAfter d < d2
      · have ih2 := ih false (eotyAfter d)
        simp only [if_pos hcp] at hstep
        rw [hstep]
        simp only [chainFrom_append, lastDate_append, h1, h2, Bool.true_and]
        simp [chainFrom, lastDate, ih2.1, ih2.2, List.getLastD_cons]
        exact getLast?_getD_cons d2 rest2 _ _
      · have ih2 := ih false d
        simp only [if_neg hcp] at hstep
        rw [hstep]
        simp only [chainFrom_append, lastDate_append, h1, h2, Bool.true_and]
        simp [chainFrom, lastDate, ih2.1, ih2.2, List.getLastD_cons]
        exact getLast?_getD_cons d2 rest2 _ _

/-- C7, amended: in every table produced by populate_cashflows with a
NONZERO first coupon amount, every event's elapsed days equal its date minus
the previous event's date, and the first event's elapsed days are 0. (When
the first coupon amount is 0 the claim fails: the checkpoint inserted for
the gap after the omitted first-coupon date is measured from that omitted
date — see the counterexample.) -/
theorem thmC7_elapsed_days_chain_when_first_coupon_nonzero (pp fv cr : ℚ) (freq : ℕ) (fca : ℚ) (sd fcd md : Date) (t : List Event)
    (hfca : fca ≠ 0)
    (ht : populate_cashflows pp fv cr freq fca sd fcd md = Except.ok t) :
    chainTable t = true := by
  unfold populate_cashflows at ht
  cases hg : generate_payment_dates fcd md freq with
  | error e => rw [hg] at ht; simp at ht
  | ok pds =>
    rw [hg] at ht
    simp only [Except.ok.injEq] at ht
    subst ht
    cases pds with
    | nil => simp [pcAssemble, chainTable, chainFrom, pcAux, lastDate]
    | cons d1 pr =>
      simp only [pcAssemble, chainTable, List.getLastD_eq_getLast?]
      refine Bool.and_eq_true_iff.mpr ⟨by simp, ?_⟩
      rw [chainFrom_append, chainFrom_append]
      set pay := calculate_coupon_payment_amount fv cr freq with hpay
      have haux := pcAux_chain fv pay fca hfca (d1 :: pr) true
      by_cases hcp0 : eotyAfter sd < d1
      · simp only [if_pos hcp0]
        have h1 : chainFrom sd
            [(⟨eotyAfter sd, 0, dayDiff (eotyAfter sd) sd⟩ : Event)] = true := by
          simp [chainFrom]
        have h2 : lastDate sd
            [(⟨eotyAfter sd, 0, dayDiff (eotyAfter sd) sd⟩ : Event)] = eotyAfter sd := by
          simp [lastDate]
        rw [h1, h2, lastDate_append, h2, (haux (eotyAfter sd)).1]
        simp only [List.getLastD_eq_getLast?] at haux
        rw [(haux (eotyAfter sd)).2]
        rw [getLast?_getD_cons d1 pr (eotyAfter sd) sd]
        simp [chainFrom]
      · simp only [if_neg hcp0]
        have h1 : chainFrom sd ([] : List Event) = true := by simp [chainFrom]
        have h2 : lastDate sd ([] : List Event) = sd := by simp [lastDate]
        rw [h1, h2, lastDate_append, h2, (haux sd).1]
        simp only [List.getLastD_eq_getLast?] at haux
        rw [(haux sd).2]
        simp [chainFrom]

theorem date_le_key (a b : Date) : (a ≤ b) = (a.key ≤ b.key) := rfl

theorem date_lt_key (a b : Date) : (a < b) = (a.key < b.key) := rfl

theorem daysInMonth_bounds (y m : ℕ) : 28 ≤ daysInMonth y m ∧ daysInMonth y m ≤ 31 := by
  unfold daysInMonth
  repeat' split
  all_goals omega

theorem monthEndOfIdx_mono {m n : ℕ} (h : m ≤ n) :
    (monthEndOfIdx m).key ≤ (monthEndOfIdx n).key := by
  rcases Nat.eq_or_lt_of_le h with rfl | hlt
  · exact Nat.le_refl _
  · have h1 := daysInMonth_bounds (m / 12) (m % 12 + 1)
    have h2 := daysInMonth_bounds (n / 12) (n % 12 + 1)
    unfold monthEndOfIdx
    simp only [Date.key]
    omega

theorem monthEndOfIdx_monthIdx (x : Date) (h1 : 1 ≤ x.m) (h2 : x.m ≤ 12) :
    monthEndOfIdx (monthIdx x) = ⟨x.y, x.m, daysInMonth x.y x.m⟩ := by
  have hy : monthIdx x / 12 = x.y := by unfold monthIdx; omega
  have hm : monthIdx x % 12 + 1 = x.m := by unfold monthIdx; omega
  unfold monthEndOfIdx
  rw [hy, hm]

theorem monthEnd_ge_self (x : Date) (hv : x.Valid) :
    x.key ≤ (monthEndOfIdx (monthIdx x)).key := by
  rw [monthEndOfIdx_monthIdx x hv.1 hv.2.1]
  have hd := hv.2.2.2
  simp only [Date.key]
  omega

/-- C9, amended: generate_payment_dates performs no schedule validation and
never fails with an InvalidScheduleError (no such error exists in the
source): for every frequency 1..12, a start date after the maturity date
yields the one-element schedule [maturity date], and a frequency that does
not divide 12 is silently floored to a 12 // frequency month spacing —
frequency 5 produces exactly the schedule of frequency 6. The only failure
is the zero-month-spacing case (frequency 0 or above 12), a raised Python
exception. -/
theorem thmC9_schedule_no_checks :
    (∀ (s m : Date) (freq : ℕ), s.Valid → m < s → 1 ≤ freq → freq ≤ 12 →
      generate_payment_dates s m freq = Except.ok [m]) ∧
    (∀ s m : Date, generate_payment_dates s m 5 = generate_payment_dates s m 6) := by
  constructor
  · intro s m freq hv hlt h1 h12
    have hk : 1 ≤ 12 / freq := (Nat.one_le_div_iff (by omega)).mpr h12
    unfold generate_payment_dates
    rw [if_neg (by omega)]
    have hmap : dateRangeME s m (12 / freq) = [] := by
      unfold dateRangeME
      rw [List.filter_eq_nil_iff]
      intro x hx
      simp only [List.mem_map, List.mem_range] at hx
      obtain ⟨i, _, rfl⟩ := hx
      have hge : s.key ≤ (monthEndOfIdx (monthIdx s + i * (12 / freq))).key :=
        le_trans (monthEnd_ge_self s hv) (monthEndOfIdx_mono (Nat.le_add_right _ _))
      rw [date_lt_key] at hlt
      simp only [date_le_key, decide_eq_true_eq]
      omega
    rw [hmap]
    simp
  · intro s m
    rfl

theorem t2dGo_eq_tnzGo (fv : ℚ) :
    ∀ (rows : List BalRow) (sCF sT sITB l : ℚ),
      (∀ r ∈ rows, r.itb ≠ 0 → r.cashFlow = 0) →
      sITB - sT = sCF - l →
      t2dGo fv sCF sT sITB rows = tnzGo fv l rows := by
  intro rows
  induction rows with
  | nil => intro _ _ _ _ _ _; rfl
  | cons r rest ih =>
    intro sCF sT sITB l hcf hinv
    by_cases hz : r.itb = 0
    · simp only [t2dGo, tnzGo, hz, ne_eq, not_true_eq_false, if_false]
      congr 1
      exact ih (sCF + r.cashFlow) (sT + 0) (sITB + 0)
        (l + r.cashFlow) (fun q hq => hcf q (List.mem_cons_of_mem r hq)) (by linarith)
    · have hcf0 : r.cashFlow = 0 := hcf r (List.mem_cons_self r rest) hz
      simp only [t2dGo, tnzGo, ne_eq, hz, not_false_eq_true, if_true, if_pos]
      have hhead : r.itb - sCF - sT + sITB + (if rest = [] then fv else 0) =
          r.itb - l + (if rest = [] then fv else 0) := by
        have : sITB - sT = sCF - l := hinv
        ring_nf
        linarith
      rw [hhead]
      congr 1
      cases rest with
      | nil => rfl
      | cons r2 rest2 =>
        have hfvb : (if (r2 :: rest2 : List BalRow) = [] then fv else 0) = 0 := by simp
        rw [hfvb] at *
        exact ih (sCF + r.cashFlow) (sT + (r.itb - l + 0)) (sITB + r.itb) 0
          (fun q hq => hcf q (List.mem_cons_of_mem r hq)) (by rw [hcf0]; linarith)

/-- C10, amended: on a table in which every 31 March row has zero cash flow
and every non-31-March row has zero InterestToBalance, tax_to_declare's
running-sum formula is equivalent to the simpler per-tax-year formula with
boundaries keyed off a NONZERO InterestToBalance (the source's own test):
such a row gets its InterestToBalance minus the sum of the cash flows of the
rows strictly between the previous nonzero-InterestToBalance row (or row 0)
and it, plus face value on the last row; every other row gets 0. A 31 March
row whose InterestToBalance is 0 gets 0, diverging from the claimed
date-keyed formula — see the counterexample. -/
theorem thmC10_taxable_interest_per_year_nonzero_itb (rows : List BalRow) (fv : ℚ)
    (hb : ∀ r ∈ rows, (r.date.m = 3 ∧ r.date.d = 31) → r.cashFlow = 0)
    (hnb : ∀ r ∈ rows, ¬(r.date.m = 3 ∧ r.date.d = 31) → r.itb = 0) :
    tax_to_declare rows fv = taxPerYearNZ rows fv := by
  have hcf : ∀ r ∈ rows, r.itb ≠ 0 → r.cashFlow = 0 := by
    intro r hr hz
    refine hb r hr ?_
    by_contra h
    exact hz (hnb r hr h)
  cases rows with
  | nil => rfl
  | cons r0 rest =>
    simp only [tax_to_declare, taxPerYearNZ]
    congr 1
    exact t2dGo_eq_tnzGo fv rest 0 0 0 0
      (fun q hq => hcf q (List.mem_cons_of_mem r0 hq)) (by ring)

theorem pcAux_zeroFlows (fv pay fca : ℚ) (hpay : pay ≠ 0) (hfp : fv + pay ≠ 0) :
    ∀ (ds : List Date) (first : Bool) (last : Date),
      (pcAux fv pay fca first last ds).filter (fun ev => decide (ev.cashFlow = 0)) =
        firstMarchCheckpoints ds := by
  intro ds
  induction ds with
  | nil => intro first last; simp [pcAux, firstMarchCheckpoints]
  | cons d rest ih =>
    intro first last
    cases rest with
    | nil =>
      cases first with
      | false => simp [pcAux, firstMarchCheckpoints, List.filter, hfp]
      | true =>
        by_cases hz : fca = 0
        · simp [pcAux, firstMarchCheckpoints, hz]
        · simp [pcAux, firstMarchCheckpoints, List.filter, hz]
    | cons d2 rest2 =>
      have hstep : pcAux fv pay fca first last (d :: d2 :: rest2) =
          (if first then (if fca = 0 then [] else [⟨d, fca, dayDiff d last⟩])
            else [⟨d, pay, dayDiff d last⟩]) ++
          (if eotyAfter d < d2 then [⟨eotyAfter d, 0, dayDiff (eotyAfter d) d⟩] else []) ++
          pcAux fv pay fca false
            (if eotyAfter d < d2 then eotyAfter d
              else if first ∧ fca = 0 then last else d) (d2 :: rest2) := by
        show pcAux fv pay fca first last (d :: d2 :: rest2) = _
        cases first with
        | false => simp [pcAux]
        | true => by_cases hz : fca = 0 <;> simp [pcAux, hz]
      rw [hstep]
      rw [List.filter_append, List.filter_append]
      have h1 : (if first then (if fca = 0 then ([] : List Event)
          else [⟨d, fca, dayDiff d last⟩]) else [⟨d, pay, dayDiff d last⟩]).filter
            (fun ev => decide (ev.cashFlow = 0)) = [] := by
        cases first with
        | false => simp [List.filter, hpay]
        | true =>
          by_cases hz : fca = 0
          · simp [hz]
          · simp [List.filter, hz]
      have h2 : (if eotyAfter d < d2 then
          [(⟨eotyAfter d, 0, dayDiff (eotyAfter d) d⟩ : Event)] else []).filter
            (fun ev => decide (ev.cashFlow = 0)) =
          (if eotyAfter d < d2 then
            [(⟨eotyAfter d, 0, dayDiff (eotyAfter d) d⟩ : Event)] else []) := by
        by_cases hcp : eotyAfter d < d2 <;> simp [hcp, List.filter]
      rw [h1, h2, ih]
      show _ = firstMarchCheckpoints (d :: d2 :: rest2)
      simp [firstMarchCheckpoints]

theorem zeroFlows_pcAssemble (pp fv pay fca : ℚ) (sd : Date) (pds : List Date)
    (hpp : pp ≠ 0) (hpay : pay ≠ 0) (hfp : fv + pay ≠ 0) :
    zeroFlows (pcAssemble pp fv pay fca sd pds) =
      firstMarchCheckpoints (sd :: pds) ++
        [⟨trailingEOTY (pds.getLastD sd), 0,
          dayDiff (trailingEOTY (pds.getLastD sd)) (pds.getLastD sd)⟩] := by
  unfold zeroFlows pcAssemble
  cases pds with
  | nil =>
    simp [List.filter, pcAux, firstMarchCheckpoints, hpp]
  | cons d1 pr =>
    have hcp0 : ∀ l : List Event,
        List.filter (fun ev => decide (ev.cashFlow = 0))
          ((⟨sd, -pp, 0⟩ : Event) :: l) =
        List.filter (fun ev => decide (ev.cashFlow = 0)) l := by
      intro l
      simp [List.filter, hpp]
    simp only [hcp0, List.filter_append]
    rw [pcAux_zeroFlows fv pay fca hpay hfp]
    have h2 : (if eotyAfter sd < d1 then
        [(⟨eotyAfter sd, 0, dayDiff (eotyAfter sd) sd⟩ : Event)] else []).filter
          (fun ev => decide (ev.cashFlow = 0)) =
        (if eotyAfter sd < d1 then
          [(⟨eotyAfter sd, 0, dayDiff (eotyAfter sd) sd⟩ : Event)] else []) := by
      by_cases hcp : eotyAfter sd < d1 <;> simp [hcp, List.filter]
    rw [h2]
    have h3 : ([(⟨trailingEOTY ((d1 :: pr).getLastD sd), 0,
        dayDiff (trailingEOTY ((d1 :: pr).getLastD sd)) ((d1 :: pr).getLastD sd)⟩ :
          Event)]).filter (fun ev => decide (ev.cashFlow = 0)) =
        [⟨trailingEOTY ((d1 :: pr).getLastD sd), 0,
          dayDiff (trailingEOTY ((d1 :: pr).getLastD sd)) ((d1 :: pr).getLastD sd)⟩] := by
      simp [List.filter]
    rw [h3]
    show _ = firstMarchCheckpoints (sd :: d1 :: pr) ++ _
    simp [firstMarchCheckpoints]

theorem monthIdx_monthEnd (n : ℕ) : monthIdx (monthEndOfIdx n) = n := by
  unfold monthIdx monthEndOfIdx
  simp only []
  omega

theorem monthIdx_replaceDay (dd : ℕ) (x : Date) :
    monthIdx (replaceDay dd x) = monthIdx x := by
  unfold replaceDay
  split <;> rfl

theorem key_lt_of_monthIdx_lt (a b : Date) (h : monthIdx a < monthIdx b)
    (h1 : 1 ≤ a.m) (h2 : a.m ≤ 12) (h3 : a.d ≤ 31) (h4 : 1 ≤ b.m) (h5 : b.m ≤ 12) :
    a.key < b.key := by
  unfold monthIdx at h
  unfold Date.key
  omega

theorem key_inj (a b : Date) (h : a.key = b.key)
    (ha1 : 1 ≤ a.m) (ha2 : a.m ≤ 12) (ha3 : a.d ≤ 31)
    (hb1 : 1 ≤ b.m) (hb2 : b.m ≤ 12) (hb3 : b.d ≤ 31) : a = b := by
  cases a with
  | mk ay am ad =>
    cases b with
    | mk by_ bm bd =>
      simp only [Date.key] at h
      simp only [] at ha1 ha2 ha3 hb1 hb2 hb3
      simp only [Date.mk.injEq]
      omega

theorem replaceDay_monthEnd_props (dd n : ℕ) (hdd : dd ≤ 31) :
    1 ≤ (replaceDay dd (monthEndOfIdx n)).m ∧ (replaceDay dd (monthEndOfIdx n)).m ≤ 12 ∧
    (replaceDay dd (monthEndOfIdx n)).d ≤ 31 ∧
    (replaceDay dd (monthEndOfIdx n)).key ≤ (monthEndOfIdx n).key := by
  have hb := daysInMonth_bounds (n / 12) (n % 12 + 1)
  unfold replaceDay monthEndOfIdx
  dsimp only
  split
  · simp only [Date.key]
    refine ⟨by omega, by omega, by omega, by omega⟩
  · simp only [Date.key]
    refine ⟨by omega, by omega, by omega, by omega⟩

theorem mem_mapped_props (s e : Date) (k : ℕ) (x : Date) (hsd : s.d ≤ 31)
    (hx : x ∈ (dateRangeME s e k).map (replaceDay s.d)) :
    1 ≤ x.m ∧ x.m ≤ 12 ∧ x.d ≤ 31 ∧ x.key ≤ e.key ∧
      ∃ i, monthIdx x = monthIdx s + i * k ∧
        x = replaceDay s.d (monthEndOfIdx (monthIdx s + i * k)) := by
  simp only [List.mem_map] at hx
  obtain ⟨c, hc, rfl⟩ := hx
  unfold dateRangeME at hc
  simp only [List.mem_filter, List.mem_map, List.mem_range] at hc
  obtain ⟨⟨i, hi, rfl⟩, hle⟩ := hc
  have hle' : (monthEndOfIdx (monthIdx s + i * k)).key ≤ e.key := by
    simpa [date_le_key] using hle
  have hp := replaceDay_monthEnd_props s.d (monthIdx s + i * k) hsd
  refine ⟨hp.1, hp.2.1, hp.2.2.1, le_trans hp.2.2.2 hle', i, ?_, rfl⟩
  rw [monthIdx_replaceDay, monthIdx_monthEnd]

theorem mapped_pairwise (s e : Date) (k : ℕ) (hk : 1 ≤ k) (hsd : s.d ≤ 31) :
    ((dateRangeME s e k).map (replaceDay s.d)).Pairwise (fun a b => a.key < b.key) := by
  have h0 : ((dateRangeME s e k).map (replaceDay s.d)).Pairwise
      (fun a b => monthIdx a < monthIdx b) := by
    apply List.pairwise_map.mpr
    apply List.Pairwise.sublist (List.filter_sublist _)
    apply List.pairwise_map.mpr
    have := List.pairwise_lt_range
    refine (List.pairwise_lt_range _).imp ?_
    intro i j hij
    rw [monthIdx_replaceDay, monthIdx_replaceDay, monthIdx_monthEnd, monthIdx_monthEnd]
    have : i * k < j * k := (Nat.mul_lt_mul_right hk).mpr hij
    omega
  refine h0.imp_of_mem ?_
  intro a b ha hb hab
  have hpa := mem_mapped_props s e k a hsd ha
  have hpb := mem_mapped_props s e k b hsd hb
  exact key_lt_of_monthIdx_lt a b hab hpa.1 hpa.2.1 hpa.2.2.1 hpb.1 hpb.2.1

theorem replaceDay_self (s : Date) (hs : s.Valid) :
    replaceDay s.d (monthEndOfIdx (monthIdx s)) = s := by
  rw [monthEndOfIdx_monthIdx s hs.1 hs.2.1]
  unfold replaceDay
  dsimp only
  rw [if_pos hs.2.2.2]

theorem sorted_getLastD (e : Date) :
    ∀ (l : List Date) (x0 : Date), l.Pairwise (fun a b => a.key < b.key) →
      (∀ x ∈ l, x.key ≤ e.key) → e ∈ l → l.getLastD x0 = e := by
  intro l
  induction l with
  | nil => intro x0 _ _ he; cases he
  | cons a t ih =>
    intro x0 hs hle he
    rw [List.getLastD_cons]
    cases t with
    | nil =>
      have : e = a := by simpa using he
      subst this
      simp
    | cons b t2 =>
      apply ih a hs.of_cons (fun x hx => hle x (List.mem_cons_of_mem a hx))
      rcases List.mem_cons.mp he with rfl | h
      · exfalso
        have h1 : e.key < b.key := (List.pairwise_cons.mp hs).1 b (List.mem_cons_self b t2)
        have h2 : b.key ≤ e.key := hle b (List.mem_cons_of_mem e (List.mem_cons_self b t2))
        omega
      · exact h

theorem gpd_ok_cases (s e : Date) (freq : ℕ) (pds : List Date)
    (hg : generate_payment_dates s e freq = Except.ok pds) :
    1 ≤ 12 / freq ∧
    ((e ∈ (dateRangeME s e (12 / freq)).map (replaceDay s.d) ∧
        pds = (dateRangeME s e (12 / freq)).map (replaceDay s.d)) ∨
      (e ∉ (dateRangeME s e (12 / freq)).map (replaceDay s.d) ∧
        pds = (dateRangeME s e (12 / freq)).map (replaceDay s.d) ++ [e])) := by
  unfold generate_payment_dates at hg
  by_cases hk : 12 / freq = 0
  · rw [if_pos hk] at hg
    exact absurd hg (by simp)
  · rw [if_neg hk] at hg
    have hg' : (if e ∈ (dateRangeME s e (12 / freq)).map (replaceDay s.d)
        then (dateRangeME s e (12 / freq)).map (replaceDay s.d)
        else (dateRangeME s e (12 / freq)).map (replaceDay s.d) ++ [e]) = pds := by
      simpa using hg
    refine ⟨Nat.pos_of_ne_zero hk, ?_⟩
    by_cases hmem : e ∈ (dateRangeME s e (12 / freq)).map (replaceDay s.d)
    · rw [if_pos hmem] at hg'
      exact Or.inl ⟨hmem, hg'.symm⟩
    · rw [if_neg hmem] at hg'
      exact Or.inr ⟨hmem, hg'.symm⟩

theorem pairwise_concat_lt (e : Date) (l : List Date)
    (hpw : l.Pairwise (fun a b => a.key < b.key))
    (hprops : ∀ x ∈ l, 1 ≤ x.m ∧ x.m ≤ 12 ∧ x.d ≤ 31 ∧ x.key ≤ e.key)
    (hem : 1 ≤ e.m) (hem2 : e.m ≤ 12) (hed : e.d ≤ 31)
    (hnmem : e ∉ l) :
    (l ++ [e]).Pairwise (fun a b => a.key < b.key) := by
  rw [List.pairwise_append]
  refine ⟨hpw, by simp, ?_⟩
  intro x hx y hy
  have hp := hprops x hx
  have hxe : x ≠ e := fun h => hnmem (h ▸ hx)
  have hne : x.key ≠ e.key := fun h =>
    hxe (key_inj x e h hp.1 hp.2.1 hp.2.2.1 hem hem2 hed)
  have hy2 : y = e := by simpa using hy
  subst hy2
  have hle := hp.2.2.2
  omega

theorem mem_concat_forall {α : Type} (P : α → Prop) (l : List α) (e : α)
    (h1 : ∀ x ∈ l, P x) (h2 : P e) : ∀ x ∈ l ++ [e], P x := by
  intro x hx
  rcases List.mem_append.mp hx with h | h
  · exact h1 x h
  · have hxe : x = e := by simpa using h
    subst hxe
    exact h2

theorem ne_nil_of_mem {α : Type} {l : List α} {e : α} (h : e ∈ l) : l ≠ [] := by
  intro hnil
  rw [hnil] at h
  cases h

theorem pds_props (s e : Date) (freq : ℕ) (pds : List Date) (hs : s.Valid) (hev : e.Valid)
    (hg : generate_payment_dates s e freq = Except.ok pds) :
    pds.Pairwise (fun a b => a.key < b.key) ∧ (∀ x0, pds.getLastD x0 = e) ∧
    pds ≠ [] ∧
    (∀ x ∈ pds, 1 ≤ x.m ∧ x.m ≤ 12 ∧ x.d ≤ 31 ∧ x.key ≤ e.key) := by
  have hsd : s.d ≤ 31 := le_trans hs.2.2.2 (daysInMonth_bounds s.y s.m).2
  have hed : e.d ≤ 31 := le_trans hev.2.2.2 (daysInMonth_bounds e.y e.m).2
  obtain ⟨hk, hcases⟩ := gpd_ok_cases s e freq pds hg
  have hpw := mapped_pairwise s e (12 / freq) hk hsd
  have hprops : ∀ x ∈ (dateRangeME s e (12 / freq)).map (replaceDay s.d),
      1 ≤ x.m ∧ x.m ≤ 12 ∧ x.d ≤ 31 ∧ x.key ≤ e.key := fun x hx =>
    ⟨(mem_mapped_props s e _ x hsd hx).1, (mem_mapped_props s e _ x hsd hx).2.1,
      (mem_mapped_props s e _ x hsd hx).2.2.1, (mem_mapped_props s e _ x hsd hx).2.2.2.1⟩
  rcases hcases with ⟨hmem, rfl⟩ | ⟨hnmem, rfl⟩
  · exact ⟨hpw,
      fun x0 => sorted_getLastD e _ x0 hpw (fun x hx => (hprops x hx).2.2.2) hmem,
      ne_nil_of_mem hmem, hprops⟩
  · refine ⟨pairwise_concat_lt e _ hpw hprops hev.1 hev.2.1 hed hnmem,
      fun x0 => List.getLastD_concat _ _ _, by simp,
      mem_concat_forall _ _ e hprops ⟨hev.1, hev.2.1, hed, le_refl _⟩⟩

theorem mem_pds_ge (s e : Date) (freq : ℕ) (pds : List Date) (hs : s.Valid)
    (hse : s.key ≤ e.key)
    (hg : generate_payment_dates s e freq = Except.ok pds) :
    ∀ x ∈ pds, s.key ≤ x.key := by
  have hsd : s.d ≤ 31 := le_trans hs.2.2.2 (daysInMonth_bounds s.y s.m).2
  obtain ⟨hk, hcases⟩ := gpd_ok_cases s e freq pds hg
  have hmapped : ∀ x ∈ (dateRangeME s e (12 / freq)).map (replaceDay s.d),
      s.key ≤ x.key := by
    intro x hx
    have hp := mem_mapped_props s e _ x hsd hx
    obtain ⟨i, hmi, hform⟩ := hp.2.2.2.2
    by_cases hi : i * (12 / freq) = 0
    · rw [hi, Nat.add_zero] at hform
      rw [hform, replaceDay_self s hs]
    · have hlt : monthIdx s < monthIdx x := by omega
      exact le_of_lt (key_lt_of_monthIdx_lt s x hlt hs.1 hs.2.1 hsd hp.1 hp.2.1)
  rcases hcases with ⟨_, rfl⟩ | ⟨_, rfl⟩
  · exact hmapped
  · intro x hx
    rcases List.mem_append.mp hx with h | h
    · exact hmapped x h
    · have : x = e := by simpa using h
      subst this
      exact hse

theorem eotyAfter_min (x : Date) (hm : x.m ≤ 12) (hd : x.d ≤ 31) :
    x < eotyAfter x ∧ (eotyAfter x).m = 3 ∧ (eotyAfter x).d = 31 ∧
    ∀ z : Date, z.m = 3 → z.d = 31 → x < z → eotyAfter x ≤ z := by
  unfold eotyAfter
  by_cases h : x < (⟨x.y, 3, 31⟩ : Date)
  · rw [if_pos h]
    refine ⟨h, rfl, rfl, ?_⟩
    intro z hm3 hd31 hxz
    rw [date_le_key]
    rw [date_lt_key] at hxz h
    simp only [Date.key] at *
    rw [hm3, hd31] at hxz ⊢
    omega
  · rw [if_neg h]
    rw [date_lt_key, not_lt] at h
    refine ⟨?_, rfl, rfl, ?_⟩
    · rw [date_lt_key]
      simp only [Date.key] at *
      omega
    · intro z hm3 hd31 hxz
      rw [date_le_key]
      rw [date_lt_key] at hxz
      simp only [Date.key] at *
      rw [hm3, hd31] at hxz ⊢
      omega

theorem freq_pos_of_gpd_ok (s e : Date) (freq : ℕ) (pds : List Date)
    (hg : generate_payment_dates s e freq = Except.ok pds) : 0 < freq := by
  obtain ⟨hk, _⟩ := gpd_ok_cases s e freq pds hg
  by_contra h
  have : freq = 0 := by omega
  subst this
  simp at hk

theorem payment_amount_pos (fv cr : ℚ) (freq : ℕ) (hfv : 0 < fv) (hcr : 0 < cr)
    (hfreq : 0 < freq) : 0 < calculate_coupon_payment_amount fv cr freq := by
  unfold calculate_coupon_payment_amount
  have : (0 : ℚ) < freq := by exact_mod_cast hfreq
  positivity

/-- C4, amended: under valid bond terms the zero-cash-flow rows of the
table produced by populate_cashflows are exactly: for each consecutive pair
of cashflow dates (settlement then payment dates), one checkpoint at the
FIRST 31 March strictly after the earlier date whenever it strictly precedes
the later date — later 31 Marches inside a long gap get no checkpoint — plus
exactly one trailing checkpoint whose date is 31 March of the maturity year
when the maturity month is January or February and 31 March of the following
year otherwise (the month < 3 rule of line 65, not the next 31 March after
the last payment). The second conjunct states that eotyAfter d is precisely
the first 31 March strictly after d. -/
theorem thmC4_checkpoints_first_march_only :
    (∀ (pp fv cr : ℚ) (freq : ℕ) (fca : ℚ) (sd fcd md : Date) (pds : List Date)
        (t : List Event),
      0 < pp → 0 < fv → 0 < cr → fcd.Valid → md.Valid →
      generate_payment_dates fcd md freq = Except.ok pds →
      populate_cashflows pp fv cr freq fca sd fcd md = Except.ok t →
      zeroFlows t = firstMarchCheckpoints (sd :: pds) ++
        [⟨trailingEOTY md, 0, dayDiff (trailingEOTY md) md⟩]) ∧
    (∀ x : Date, x.m ≤ 12 → x.d ≤ 31 →
      x < eotyAfter x ∧ (eotyAfter x).m = 3 ∧ (eotyAfter x).d = 31 ∧
      ∀ z : Date, z.m = 3 → z.d = 31 → x < z → eotyAfter x ≤ z) := by
  constructor
  · intro pp fv cr freq fca sd fcd md pds t hpp hfv hcr hfcd hmd hg ht
    unfold populate_cashflows at ht
    rw [hg] at ht
    simp only [Except.ok.injEq] at ht
    subst ht
    have hfreq := freq_pos_of_gpd_ok fcd md freq pds hg
    have hpay := payment_amount_pos fv cr freq hfv hcr hfreq
    have hlast := (pds_props fcd md freq pds hfcd hmd hg).2.1 sd
    rw [zeroFlows_pcAssemble pp fv _ fca sd pds (ne_of_gt hpp) (ne_of_gt hpay)
      (ne_of_gt (by linarith))]
    rw [hlast]
  · exact eotyAfter_min

theorem trailingEOTY_gt (x : Date) (hm : x.m ≤ 12) (hd : x.d ≤ 31) :
    x.key < (trailingEOTY x).key := by
  unfold trailingEOTY
  split <;> (simp only [Date.key] at *; omega)

theorem ne_of_key_lt (a b : Date) (h : a.key < b.key) : b ≠ a := by
  intro he
  subst he
  omega

theorem mem_firstMarchCheckpoints :
    ∀ (ds : List Date) (ev : Event), ev ∈ firstMarchCheckpoints ds →
      ∃ d, d ∈ ds ∧ ev.date = eotyAfter d := by
  intro ds
  induction ds with
  | nil => intro ev h; simp [firstMarchCheckpoints] at h
  | cons d rest ih =>
    cases rest with
    | nil => intro ev h; simp [firstMarchCheckpoints] at h
    | cons d2 rest2 =>
      intro ev h
      have h' : ev ∈ (if eotyAfter d < d2 then
          [(⟨eotyAfter d, 0, dayDiff (eotyAfter d) d⟩ : Event)] else []) ++
          firstMarchCheckpoints (d2 :: rest2) := h
      rcases List.mem_append.mp h' with h1 | h1
      · by_cases hcp : eotyAfter d < d2
        · rw [if_pos hcp] at h1
          have : ev = ⟨eotyAfter d, 0, dayDiff (eotyAfter d) d⟩ := by simpa using h1
          exact ⟨d, List.mem_cons_self d _, by rw [this]⟩
        · rw [if_neg hcp] at h1
          cases h1
      · obtain ⟨d', hd', hh⟩ := ih ev h1
        exact ⟨d', List.mem_cons_of_mem d hd', hh⟩

theorem range_start_cases (s e : Date) (k : ℕ) (hs : s.Valid) :
    s ∈ (dateRangeME s e k).map (replaceDay s.d) ∨
    ((dateRangeME s e k).map (replaceDay s.d) = [] ∧
      e.key < (monthEndOfIdx (monthIdx s)).key) := by
  by_cases hc : (monthEndOfIdx (monthIdx s)).key ≤ e.key
  · left
    have hc0 : monthEndOfIdx (monthIdx s) ∈ dateRangeME s e k := by
      unfold dateRangeME
      rw [List.mem_filter]
      constructor
      · rw [List.mem_map]
        refine ⟨0, ?_, by simp⟩
        rw [List.mem_range]
        exact Nat.succ_pos _
      · simpa [date_le_key] using hc
    rw [List.mem_map]
    exact ⟨_, hc0, replaceDay_self s hs⟩
  · right
    push_neg at hc
    refine ⟨?_, hc⟩
    rw [List.map_eq_nil_iff]
    unfold dateRangeME
    rw [List.filter_eq_nil_iff]
    intro x hx
    simp only [List.mem_map, List.mem_range] at hx
    obtain ⟨i, _, rfl⟩ := hx
    have hmono := monthEndOfIdx_mono (Nat.le_add_right (monthIdx s) (i * k))
    simp only [date_le_key, decide_eq_true_eq]
    omega

theorem eotyAfter_march (x : Date) : (eotyAfter x).m = 3 ∧ (eotyAfter x).d = 31 := by
  unfold eotyAfter
  split <;> exact ⟨rfl, rfl⟩

/-- C1, amended: for every valid BondTerms with first coupon amount = 0
(settlement ≤ first coupon ≤ maturity), the table produced by
populate_cashflows contains NO event dated at the first coupon date with
cash flow 0: the first-coupon event is omitted from the schedule, not
emitted with a zero cash flow. -/
theorem thmC1_first_coupon_omitted_when_zero (pp fv cr : ℚ) (freq : ℕ) (sd fcd md : Date) (t : List Event)
    (hpp : 0 < pp) (hfv : 0 < fv) (hcr : 0 < cr)
    (hsd : sd.Valid) (hfcd : fcd.Valid) (hmd : md.Valid)
    (hsf : sd ≤ fcd) (hfm : fcd ≤ md)
    (ht : populate_cashflows pp fv cr freq 0 sd fcd md = Except.ok t) :
    noZeroFlowAt fcd t = true := by
  unfold populate_cashflows at ht
  cases hg : generate_payment_dates fcd md freq with
  | error e => rw [hg] at ht; simp at ht
  | ok pds =>
    rw [hg] at ht
    simp only [Except.ok.injEq] at ht
    subst ht
    obtain ⟨hpw, hlastAll, hne, hbounds⟩ := pds_props fcd md freq pds hfcd hmd hg
    have hfmk : fcd.key ≤ md.key := by rwa [date_le_key] at hfm
    have hge := mem_pds_ge fcd md freq pds hfcd hfmk hg
    have hfreq := freq_pos_of_gpd_ok fcd md freq pds hg
    have hpay := payment_amount_pos fv cr freq hfv hcr hfreq
    obtain ⟨d1, pr, rfl⟩ := List.exists_cons_of_ne_nil hne
    have hnefcd : eotyAfter sd < d1 → eotyAfter sd ≠ fcd := by
      intro hguard
      rcases range_start_cases fcd md (12 / freq) hfcd with hin | ⟨hmapped_nil, hkey⟩
      · obtain ⟨hk, hcases⟩ := gpd_ok_cases fcd md freq _ hg
        have hfcd_mem : fcd ∈ d1 :: pr := by
          rcases hcases with ⟨_, hpds⟩ | ⟨_, hpds⟩
          · rw [hpds]; exact hin
          · rw [hpds]; exact List.mem_append.mpr (Or.inl hin)
        have hd1 : fcd = d1 := by
          rcases List.mem_cons.mp hfcd_mem with h | h
          · exact h
          · exfalso
            have hlt : d1.key < fcd.key := (List.pairwise_cons.mp hpw).1 fcd h
            have hle : fcd.key ≤ d1.key := hge d1 (List.mem_cons_self d1 pr)
            omega
        intro he
        have h1 : (eotyAfter sd).key < d1.key := by rwa [date_lt_key] at hguard
        rw [he, hd1] at h1
        omega
      · obtain ⟨hk, hcases⟩ := gpd_ok_cases fcd md freq _ hg
        rcases hcases with ⟨hmdmem, _⟩ | ⟨_, hpds⟩
        · rw [hmapped_nil] at hmdmem; cases hmdmem
        · rw [hmapped_nil] at hpds
          intro he
          have hm3 : fcd.m = 3 ∧ fcd.d = 31 := by
            rw [← he]; exact eotyAfter_march sd
          have hME := monthEndOfIdx_monthIdx fcd hfcd.1 hfcd.2.1
          have hdim : daysInMonth fcd.y fcd.m = 31 := by rw [hm3.1]; rfl
          have hkeq : (monthEndOfIdx (monthIdx fcd)).key = fcd.key := by
            rw [hME]
            simp only [Date.key]
            rw [hdim, hm3.2]
          rw [hkeq] at hkey
          omega
    have hauxcase : ∀ (last : Date) (ev : Event),
        ev ∈ pcAux fv (calculate_coupon_payment_amount fv cr freq) 0 true last (d1 :: pr) →
        (!(decide (ev.date = fcd) && decide (ev.cashFlow = 0))) = true := by
      intro last ev hevaux
      by_cases hcf : ev.cashFlow = 0
      · have hmemf : ev ∈ firstMarchCheckpoints (d1 :: pr) := by
          rw [← pcAux_zeroFlows fv _ 0 hpay.ne' (by linarith) (d1 :: pr) true last]
          exact List.mem_filter.mpr ⟨hevaux, by simp [hcf]⟩
        obtain ⟨d, hd, hdate⟩ := mem_firstMarchCheckpoints _ ev hmemf
        have hb := hbounds d hd
        have h1 : d.key < (eotyAfter d).key := by
          have h2 := (eotyAfter_min d hb.2.1 hb.2.2.1).1
          rwa [date_lt_key] at h2
        have h2 := hge d hd
        have hned : ev.date ≠ fcd := by
          rw [hdate]
          exact ne_of_key_lt fcd (eotyAfter d) (by omega)
        simp [hned]
      · simp [hcf]
    have htrailcase : (!(decide ((trailingEOTY ((d1 :: pr).getLastD sd)) = fcd) &&
        decide ((0:ℚ) = 0))) = true := by
      rw [hlastAll sd]
      have hmd31 : md.d ≤ 31 := le_trans hmd.2.2.2 (daysInMonth_bounds md.y md.m).2
      have h1 := trailingEOTY_gt md hmd.2.1 hmd31
      have hned : trailingEOTY md ≠ fcd := ne_of_key_lt fcd (trailingEOTY md) (by omega)
      simp [hned]
    unfold noZeroFlowAt pcAssemble
    rw [List.all_eq_true]
    intro ev hev
    by_cases hguard : eotyAfter sd < d1
    · simp only [if_pos hguard, List.mem_cons, List.mem_append, List.mem_singleton,
        List.not_mem_nil, or_false, false_or] at hev
      rcases hev with rfl | (rfl | hev) | rfl
      · simp [neg_eq_zero, hpp.ne']
      · simp [hnefcd hguard]
      · exact hauxcase _ ev hev
      · exact htrailcase
    · simp only [if_neg hguard, List.mem_cons, List.mem_append, List.mem_singleton,
        List.not_mem_nil, List.nil_append, or_false, false_or] at hev
      rcases hev with rfl | hev | rfl
      · simp [neg_eq_zero, hpp.ne']
      · exact hauxcase _ ev hev
      · exact htrailcase


unseal Rat.mul Rat.add Rat.sub Rat.inv in
/-- C1 witness: the amended statement instantiated on concrete bond terms
with first coupon amount 0 (first coupon date 2024-08-10). -/
theorem witC1_first_coupon_omitted_when_zero :
    noZeroFlowAt ⟨2024,8,10⟩ [⟨⟨2024,2,10⟩, -90, 0⟩, ⟨⟨2024,3,31⟩, 0, 50⟩,
      ⟨⟨2025,3,31⟩, 0, 233⟩, ⟨⟨2025,8,10⟩, 110, 132⟩, ⟨⟨2026,3,31⟩, 0, 233⟩] = true :=
  thmC1_first_coupon_omitted_when_zero 90 100 (1/10) 1 ⟨2024,2,10⟩ ⟨2024,8,10⟩
    ⟨2025,8,10⟩ _ (by decide) (by decide) (by decide) (by decide) (by decide) (by decide)
    (by decide) (by decide) (by decide)

unseal Rat.mul Rat.add Rat.sub Rat.inv in
/-- C4 witness: the amended statement instantiated on the concrete bond
terms of the counterexample. -/
theorem witC4_checkpoints_first_march_only :
    zeroFlows [⟨⟨2022,6,15⟩, -95, 0⟩, ⟨⟨2023,3,31⟩, 0, 289⟩, ⟨⟨2024,8,15⟩, 2, 503⟩,
        ⟨⟨2025,2,15⟩, 5/2, 184⟩, ⟨⟨2025,3,15⟩, 205/2, 28⟩, ⟨⟨2026,3,31⟩, 0, 381⟩] =
      firstMarchCheckpoints [⟨2022,6,15⟩, ⟨2024,8,15⟩, ⟨2025,2,15⟩, ⟨2025,3,15⟩] ++
        [⟨⟨2026,3,31⟩, 0, 381⟩] :=
  thmC4_checkpoints_first_march_only.1 95 100 (1/20) 2 2 ⟨2022,6,15⟩ ⟨2024,8,15⟩
    ⟨2025,3,15⟩ [⟨2024,8,15⟩, ⟨2025,2,15⟩, ⟨2025,3,15⟩] _ (by decide) (by decide)
    (by decide) (by decide) (by decide) (by decide) (by decide)

/-- C6 witness: the sum property instantiated on a concrete three-row table
ending at 2025-03-31 with cumulative interest 9. -/
theorem witC6_itb_sum :
    (interest_to_balance_data [(⟨2024,1,15⟩, 0), (⟨2024,6,1⟩, 7), (⟨2025,3,31⟩, 9)]).sum
      = 9 :=
  thmC6_itb_sum_equals_final_cumulative_interest.1
    [(⟨2024,1,15⟩, 0), (⟨2024,6,1⟩, 7), (⟨2025,3,31⟩, 9)] ⟨2025,3,31⟩ 9
    (by decide) rfl rfl

unseal Rat.mul Rat.add Rat.sub Rat.inv in
/-- C7 witness: the elapsed-days chain on the table of a concrete bond with
nonzero first coupon amount 5/2. -/
theorem witC7_elapsed_days_chain :
    chainTable [⟨⟨2024,1,15⟩, -95, 0⟩, ⟨⟨2024,3,31⟩, 0, 76⟩, ⟨⟨2024,7,15⟩, 5/2, 106⟩,
      ⟨⟨2025,1,15⟩, 5/2, 184⟩, ⟨⟨2025,3,31⟩, 0, 75⟩, ⟨⟨2025,7,15⟩, 5/2, 106⟩,
      ⟨⟨2026,1,15⟩, 205/2, 184⟩, ⟨⟨2026,3,31⟩, 0, 75⟩] = true :=
  thmC7_elapsed_days_chain_when_first_coupon_nonzero 95 100 (1/20) 2 (5/2) ⟨2024,1,15⟩
    ⟨2024,7,15⟩ ⟨2026,1,15⟩ _ (by decide) (by decide)

/-- C9 witness: a start date after the maturity date, frequency 4, yields the
one-element schedule. -/
theorem witC9_schedule_no_checks :
    generate_payment_dates ⟨2025,5,1⟩ ⟨2024,5,2⟩ 4 = Except.ok [⟨2024,5,2⟩] :=
  thmC9_schedule_no_checks.1 ⟨2025,5,1⟩ ⟨2024,5,2⟩ 4 (by decide) (by decide)
    (by decide) (by decide)

/-- C10 witness: the equivalence instantiated on a concrete three-row table
whose 31 March row carries a nonzero InterestToBalance. -/
theorem witC10_taxable_interest_per_year :
    tax_to_declare [⟨⟨2024,1,15⟩, -100, 0⟩, ⟨⟨2024,6,1⟩, 4, 0⟩, ⟨⟨2025,3,31⟩, 0, 9⟩] 50 =
      taxPerYearNZ [⟨⟨2024,1,15⟩, -100, 0⟩, ⟨⟨2024,6,1⟩, 4, 0⟩, ⟨⟨2025,3,31⟩, 0, 9⟩] 50 :=
  thmC10_taxable_interest_per_year_nonzero_itb
    [⟨⟨2024,1,15⟩, -100, 0⟩, ⟨⟨2024,6,1⟩, 4, 0⟩, ⟨⟨2025,3,31⟩, 0, 9⟩] 50
    (by decide) (by decide)

end YTM
